import Mathlib

/-!
Shallow embedding of the `ScheduleManager` class (the schedule orchestrator of
this repository's source) and of the JavaScript array/Map primitives it relies
on.  Schedules are identified by a numeric identity `Schedule.id`; the JS
`Map`s keyed by schedule object are modelled as association lists keyed by that
identity.  `ScheduleRun` objects are opaque to the manager, so each run is
modelled as a fresh numeric id together with a record of the constructor
arguments `new ScheduleRun(schedule, runCount, memoryCollection, headers)` and
of the observable flags set by `terminate()` / `removeAllListeners()`.  The
mutable `{}` caches created by `addSchedule` are modelled as fresh reference
ids drawn from an allocation counter, so that "same object instance" is
expressible as equality of reference ids.  `log.warn` calls are recorded in a
`warnings` list, carrying the run count named in the message.
-/

/-- A schedule record as consumed by the manager: its identity, its
`refreshRateMinutes` field (used by `beginTimers`), and the optional
per-schedule max-runs override that the external schedule record carries. -/
structure Schedule where
  id : Nat
  refreshRateMinutes : Nat
  maxRunsOverride : Option Nat
deriving DecidableEq, Repr

/-- The slice of the global configuration read by the manager:
`getConfig().advanced.parallelRuns`.  `none` models an undefined value. -/
structure Config where
  parallelRuns : Option Nat
deriving DecidableEq, Repr

/-- The ambient globals of the module: the configuration accessor and
`Base.isMongoDatabase`. -/
structure Env where
  config : Config
  isMongoDatabase : Bool
deriving DecidableEq, Repr

/-- The observable part of one `ScheduleRun` object: the constructor arguments
`(schedule, runCount, memoryCollection, headers)` (the caches being reference
ids, `none` when the corresponding `Map.get` returned `undefined`), whether
`terminate()` has been called, and whether its event listeners are still
attached (cleared by `removeAllListeners()`). -/
structure RunObj where
  schedule : Nat
  runCount : Option Nat
  memory : Option Nat
  headers : Option Nat
  terminated : Bool
  listeners : Bool
deriving DecidableEq, Repr

/-- Lookup in an association list, modelling `Map.prototype.get`
(`none` models `undefined`). -/
def assocGet {α : Type} : List (Nat × α) → Nat → Option α
  | [], _ => none
  | (k, v) :: t, k2 => if k = k2 then some v else assocGet t k2

/-- Update-or-append in an association list, modelling `Map.prototype.set`. -/
def assocSet {α : Type} : List (Nat × α) → Nat → α → List (Nat × α)
  | [], k, v => [(k, v)]
  | (k2, v2) :: t, k, v =>
      if k2 = k then (k, v) :: t else (k2, v2) :: assocSet t k v

/-- `Map.get` on a map whose stored values are JS numbers that may be `NaN`
(`Option Nat`, `none` for `NaN`): a missing key and a stored `NaN` both read
back as a non-number. -/
def jsGet (l : List (Nat × Option Nat)) (k : Nat) : Option Nat :=
  match assocGet l k with
  | some v => v
  | none => none

/-- `Array.prototype.indexOf`: index of the first occurrence, `-1` if absent. -/
def jsIndexOf : List Nat → Nat → Int
  | [], _ => -1
  | y :: t, x =>
      if y = x then 0
      else
        let r := jsIndexOf t x
        if r = -1 then -1 else r + 1

/-- `Array.prototype.splice(i, 1)`: remove one element at index `i`, where a
negative `i` counts from the end (clamped at 0) and an out-of-range start
removes nothing. -/
def splice1 {α : Type} (l : List α) (i : Int) : List α :=
  let len : Int := (l.length : Int)
  let start : Nat := (if i < 0 then max (len + i) 0 else min i len).toNat
  l.take start ++ l.drop (start + 1)

/-- The effect of `run.terminate()` followed by `run.removeAllListeners()` on
the run object itself. -/
def markRun (v : RunObj) : RunObj := { v with terminated := true, listeners := false }

/-- Apply `markRun` to the heap entry of run `rid`. -/
def markTerminated (h : List (Nat × RunObj)) (rid : Nat) : List (Nat × RunObj) :=
  h.map fun p => if p.1 = rid then (p.1, markRun p.2) else p

/-- The mutable state of a `ScheduleManager` instance: the fields of the class,
plus a heap of run objects (`runHeap`, keyed by run id, with `nextRunId` the
allocator), an allocator `nextRef` for the fresh `{}` cache objects, and the
list of run counts named by `log.warn` messages. -/
structure ScheduleManager where
  schedules : List Schedule
  scheduleRuns : List Nat
  scheduleRunCounts : List (Nat × Option Nat)
  memoryCollections : List (Nat × Nat)
  headers : List (Nat × Nat)
  debugFeedIDs : List Nat
  timers : List (Nat × Nat)
  runHeap : List (Nat × RunObj)
  nextRunId : Nat
  nextRef : Nat
  warnings : List Nat
deriving DecidableEq, Repr

namespace ScheduleManager

/-- The state built by the constructor. -/
def initial : ScheduleManager :=
  { schedules := [], scheduleRuns := [], scheduleRunCounts := [],
    memoryCollections := [], headers := [], debugFeedIDs := [], timers := [],
    runHeap := [], nextRunId := 0, nextRef := 0, warnings := [] }

/-- `addSchedule(schedule)`: push onto `this.schedules`, set the run count to
0, allocate a fresh memory collection only on a Mongo database, and always
allocate a fresh headers object. -/
def addSchedule (env : Env) (m : ScheduleManager) (s : Schedule) : ScheduleManager :=
  { m with
      schedules := m.schedules ++ [s],
      scheduleRunCounts := assocSet m.scheduleRunCounts s.id (some 0),
      memoryCollections :=
        if env.isMongoDatabase then assocSet m.memoryCollections s.id m.nextRef
        else m.memoryCollections,
      headers := assocSet m.headers s.id
        (m.nextRef + if env.isMongoDatabase then 1 else 0),
      nextRef := m.nextRef + (if env.isMongoDatabase then 2 else 1) }

/-- `addSchedules(schedules)`. -/
def addSchedules (env : Env) (m : ScheduleManager) (ss : List Schedule) : ScheduleManager :=
  ss.foldl (addSchedule env) m

/-- Whether the run object stored for `rid` belongs to schedule `sid`
(the predicate `r.schedule === schedule` of `getRuns`). -/
def belongsTo (h : List (Nat × RunObj)) (rid sid : Nat) : Bool :=
  match assocGet h rid with
  | some v => v.schedule == sid
  | none => false

/-- `getRuns(schedule)`: `this.scheduleRuns.filter(r => r.schedule === schedule)`. -/
def getRuns (m : ScheduleManager) (sid : Nat) : List Nat :=
  m.scheduleRuns.filter fun rid => belongsTo m.runHeap rid sid

/-- `terminateRun(run)`: `run.terminate(); run.removeAllListeners();
this.scheduleRuns.splice(this.scheduleRuns.indexOf(run), 1)`. -/
def terminateRun (m : ScheduleManager) (rid : Nat) : ScheduleManager :=
  { m with
      runHeap := markTerminated m.runHeap rid,
      scheduleRuns := splice1 m.scheduleRuns (jsIndexOf m.scheduleRuns rid) }

/-- `terminateScheduleRuns(schedule)`: terminate each run of the snapshot
`this.getRuns(schedule)`. -/
def terminateScheduleRuns (m : ScheduleManager) (sid : Nat) : ScheduleManager :=
  (m.getRuns sid).foldl terminateRun m

/-- `atMaxRuns(schedule)`: strict triple-equality of the current run count of
the schedule against `getConfig().advanced.parallelRuns`; comparison with an
undefined configuration value is `false`. -/
def atMaxRuns (env : Env) (m : ScheduleManager) (s : Schedule) : Bool :=
  match env.config.parallelRuns with
  | some maxRuns => (m.getRuns s.id).length == maxRuns
  | none => false

/-- `incrementRunCount(schedule)`: `counts.set(schedule, counts.get(schedule) + 1)`
(adding 1 to `undefined` or `NaN` stores `NaN`). -/
def incrementRunCount (m : ScheduleManager) (sid : Nat) : ScheduleManager :=
  { m with
      scheduleRunCounts :=
        assocSet m.scheduleRunCounts sid ((jsGet m.scheduleRunCounts sid).map (· + 1)) }

/-- `run(schedule)`: if at max runs, warn naming the current run count and
terminate all of the schedule's runs; then construct a new `ScheduleRun` from
the schedule's run count and caches, register it, and start it. -/
def run (env : Env) (m : ScheduleManager) (s : Schedule) : ScheduleManager :=
  let m1 :=
    if atMaxRuns env m s then
      terminateScheduleRuns
        { m with warnings := m.warnings ++ [(m.getRuns s.id).length] } s.id
    else m
  let robj : RunObj :=
    { schedule := s.id,
      runCount := jsGet m1.scheduleRunCounts s.id,
      memory := assocGet m1.memoryCollections s.id,
      headers := assocGet m1.headers s.id,
      terminated := false,
      listeners := true }
  { m1 with
      runHeap := m1.runHeap ++ [(m1.nextRunId, robj)],
      scheduleRuns := m1.scheduleRuns ++ [m1.nextRunId],
      nextRunId := m1.nextRunId + 1 }

/-- Delivery of a run's `finish` event: the `once('finish', ...)` handler runs
exactly when the run's listeners are still attached, and then terminates the
run and increments the run count of the schedule captured at creation. -/
def finishRun (m : ScheduleManager) (rid : Nat) : ScheduleManager :=
  match assocGet m.runHeap rid with
  | some v =>
      if v.listeners then incrementRunCount (terminateRun m rid) v.schedule else m
  | none => m

/-- `clearTimers()`: clear every interval and empty `this.timers`. -/
def clearTimers (m : ScheduleManager) : ScheduleManager := { m with timers := [] }

/-- One iteration of the `beginTimers` loop body: `this.run(schedule)`, then
`this.timers.push(setInterval(..., schedule.refreshRateMinutes * 60000))`. -/
def timerStep (env : Env) (acc : ScheduleManager) (s : Schedule) : ScheduleManager :=
  let acc1 := run env acc s
  { acc1 with timers := acc1.timers ++ [(s.id, s.refreshRateMinutes * 60000)] }

/-- `beginTimers()`: clear timers, then for each schedule run it once and push
one interval of `schedule.refreshRateMinutes * 60000` milliseconds. -/
def beginTimers (env : Env) (m : ScheduleManager) : ScheduleManager :=
  let m0 := m.clearTimers
  m0.schedules.foldl (timerStep env) m0

/-- `addDebugFeedID(feedID)` (`Set.prototype.add`). -/
def addDebugFeedID (m : ScheduleManager) (f : Nat) : ScheduleManager :=
  { m with
      debugFeedIDs :=
        if f ∈ m.debugFeedIDs then m.debugFeedIDs else m.debugFeedIDs ++ [f] }

/-- `removeDebugFeedID(feedID)` (`Set.prototype.delete`). -/
def removeDebugFeedID (m : ScheduleManager) (f : Nat) : ScheduleManager :=
  { m with debugFeedIDs := m.debugFeedIDs.filter (· ≠ f) }

/-- `isDebugging(feedID)`. -/
def isDebugging (m : ScheduleManager) (f : Nat) : Bool :=
  m.debugFeedIDs.contains f

/-- Well-formedness of a manager state, true of every state reachable from
`initial`: registered run ids are distinct, every heap key is below the
allocator, and every registered run id has a heap entry. -/
def WF (m : ScheduleManager) : Prop :=
  m.scheduleRuns.Nodup
    ∧ (∀ k ∈ m.runHeap.map Prod.fst, k < m.nextRunId)
    ∧ (∀ r ∈ m.scheduleRuns, r ∈ m.runHeap.map Prod.fst)

instance (m : ScheduleManager) : Decidable (WF m) := by
  unfold WF; infer_instance

end ScheduleManager

/-! ### Association list lemmas -/

theorem assocGet_assocSet_self {α : Type} (l : List (Nat × α)) (k : Nat) (v : α) :
    assocGet (assocSet l k v) k = some v := by
  induction l with
  | nil => simp [assocSet, assocGet]
  | cons p t ih =>
      obtain ⟨k2, v2⟩ := p
      by_cases h : k2 = k
      · simp [assocSet, h, assocGet]
      · simp [assocSet, h, assocGet, ih]

theorem assocGet_assocSet_ne {α : Type} (l : List (Nat × α)) (k k2 : Nat) (v : α)
    (h : k2 ≠ k) : assocGet (assocSet l k v) k2 = assocGet l k2 := by
  have h2 : k ≠ k2 := Ne.symm h
  induction l with
  | nil => simp [assocSet, assocGet, h2]
  | cons p t ih =>
      obtain ⟨k3, v3⟩ := p
      by_cases h3 : k3 = k
      · subst h3
        simp [assocSet, assocGet, h2]
      · simp [assocSet, assocGet, h3, ih]

theorem assocGet_append_some {α : Type} (l1 l2 : List (Nat × α)) (k : Nat) (v : α)
    (h : assocGet l1 k = some v) : assocGet (l1 ++ l2) k = some v := by
  induction l1 with
  | nil => simp [assocGet] at h
  | cons p t ih =>
      obtain ⟨k2, v2⟩ := p
      by_cases h2 : k2 = k
      · simp [assocGet, h2] at h ⊢; exact h
      · simp [assocGet, h2] at h ⊢; exact ih h

theorem assocGet_append_none {α : Type} (l1 l2 : List (Nat × α)) (k : Nat)
    (h : assocGet l1 k = none) : assocGet (l1 ++ l2) k = assocGet l2 k := by
  induction l1 with
  | nil => simp
  | cons p t ih =>
      obtain ⟨k2, v2⟩ := p
      by_cases h2 : k2 = k
      · simp [assocGet, h2] at h
      · simp [assocGet, h2] at h ⊢; exact ih h

theorem assocGet_eq_none_iff {α : Type} (l : List (Nat × α)) (k : Nat) :
    assocGet l k = none ↔ k ∉ l.map Prod.fst := by
  induction l with
  | nil => simp [assocGet]
  | cons p t ih =>
      obtain ⟨k2, v2⟩ := p
      by_cases h2 : k2 = k
      · subst h2; simp [assocGet]
      · simp [assocGet, h2, ih, Ne.symm h2]

theorem jsGet_assocSet_self (l : List (Nat × Option Nat)) (k : Nat) (v : Option Nat) :
    jsGet (assocSet l k v) k = v := by
  simp [jsGet, assocGet_assocSet_self]

theorem jsGet_assocSet_ne (l : List (Nat × Option Nat)) (k k2 : Nat) (v : Option Nat)
    (h : k2 ≠ k) : jsGet (assocSet l k v) k2 = jsGet l k2 := by
  simp [jsGet, assocGet_assocSet_ne l k k2 v h]

/-! ### indexOf / splice lemmas -/

theorem jsIndexOf_nonneg_or_neg_one (l : List Nat) (x : Nat) :
    jsIndexOf l x = -1 ∨ 0 ≤ jsIndexOf l x := by
  induction l with
  | nil => simp [jsIndexOf]
  | cons y t ih =>
      by_cases h : y = x
      · right; simp [jsIndexOf, h]
      · rcases ih with h2 | h2 <;> simp only [jsIndexOf, if_neg h]
        · left; simp [h2]
        · right
          by_cases h3 : jsIndexOf t x = -1
          · omega
          · simp only [if_neg h3]; omega

theorem jsIndexOf_eq_neg_one_iff (l : List Nat) (x : Nat) :
    jsIndexOf l x = -1 ↔ x ∉ l := by
  induction l with
  | nil => simp [jsIndexOf]
  | cons y t ih =>
      by_cases h : y = x
      · simp [jsIndexOf, h]
      · have hxy : x ≠ y := fun h2 => h h2.symm
        by_cases h3 : jsIndexOf t x = -1
        · simp [jsIndexOf, h, h3, ih.mp h3, hxy]
        · have h5 : x ∈ t := by
            by_contra h6
            exact h3 (ih.mpr h6)
          have h2 : 0 ≤ jsIndexOf t x := by
            rcases jsIndexOf_nonneg_or_neg_one t x with h6 | h6
            · exact absurd h6 h3
            · exact h6
          simp only [jsIndexOf, if_neg h, if_neg h3]
          constructor
          · intro h6; exact absurd h6 (by omega)
          · intro h6; exact absurd (List.mem_cons_of_mem y h5) h6

theorem splice1_cons_of_nonneg {α : Type} (y : α) (t : List α) (i : Int) (h : 0 ≤ i) :
    splice1 (y :: t) (i + 1) = y :: splice1 t i := by
  unfold splice1
  have h1 : ¬ (i + 1 < 0) := by omega
  have h2 : ¬ (i < 0) := by omega
  simp only [if_neg h1, if_neg h2, List.length_cons]
  have h3 : (min (i + 1) ((t.length : Int) + 1)).toNat = (min i (t.length : Int)).toNat + 1 := by
    omega
  have h4 : ((t.length + 1 : Nat) : Int) = (t.length : Int) + 1 := by push_cast; ring
  rw [h4, h3]
  simp [List.take_succ_cons, List.drop_succ_cons]

theorem splice1_cons_zero {α : Type} (y : α) (t : List α) : splice1 (y :: t) 0 = t := by
  unfold splice1
  have h1 : ¬ ((0 : Int) < 0) := by omega
  have h2 : (min (0 : Int) (((y :: t).length : Nat) : Int)).toNat = 0 := by omega
  simp only [if_neg h1, h2]
  simp

theorem splice1_jsIndexOf_of_mem (l : List Nat) (x : Nat) (h : x ∈ l) :
    splice1 l (jsIndexOf l x) = l.erase x := by
  induction l with
  | nil => simp at h
  | cons y t ih =>
      by_cases h2 : y = x
      · subst h2
        simp [jsIndexOf, splice1_cons_zero, List.erase_cons_head]
      · have h3 : x ∈ t := by
          rcases List.mem_cons.mp h with h4 | h4
          · exact absurd h4.symm h2
          · exact h4
        have h4 : jsIndexOf t x ≠ -1 := by
          rw [Ne, jsIndexOf_eq_neg_one_iff]; simp [h3]
        have h5 : 0 ≤ jsIndexOf t x := by
          rcases jsIndexOf_nonneg_or_neg_one t x with h6 | h6
          · exact absurd h6 h4
          · exact h6
        have h6 : jsIndexOf (y :: t) x = jsIndexOf t x + 1 := by
          simp only [jsIndexOf, if_neg h2, if_neg h4]
        rw [h6, splice1_cons_of_nonneg y t _ h5, ih h3, List.erase_cons_tail]
        simp [h2]

theorem splice1_neg_one {α : Type} (l : List α) : splice1 l (-1) = l.dropLast := by
  unfold splice1
  simp only [if_pos (by omega : (-1 : Int) < 0)]
  have h : (max ((l.length : Int) + -1) 0).toNat = l.length - 1 := by omega
  rw [h]
  cases l with
  | nil => simp
  | cons y t =>
      have h2 : (y :: t).length - 1 = t.length := by simp
      rw [h2, List.dropLast_eq_take]
      have h3 : t.length + 1 = (y :: t).length := by simp
      rw [h3, List.drop_length]
      simp

theorem splice1_jsIndexOf_of_not_mem (l : List Nat) (x : Nat) (h : x ∉ l) :
    splice1 l (jsIndexOf l x) = l.dropLast := by
  rw [jsIndexOf_eq_neg_one_iff l x |>.mpr h, splice1_neg_one]

theorem splice1_sublist {α : Type} (l : List α) (i : Int) : List.Sublist (splice1 l i) l := by
  unfold splice1
  set s : Nat := (if i < 0 then max ((l.length : Int) + i) 0 else min i (l.length : Int)).toNat
  calc List.Sublist (l.take s ++ l.drop (s + 1)) (l.take s ++ l.drop s) := by
        apply List.Sublist.append_left
        have : l.drop (s + 1) = (l.drop s).drop 1 := by
          rw [List.drop_drop]
        rw [this]
        exact List.drop_sublist 1 (l.drop s)
    _ = l := List.take_append_drop s l

/-! ### markTerminated lemmas -/

theorem markTerminated_map_fst (h : List (Nat × RunObj)) (rid : Nat) :
    (markTerminated h rid).map Prod.fst = h.map Prod.fst := by
  unfold markTerminated
  rw [List.map_map]
  apply List.map_congr_left
  intro p _
  by_cases h2 : p.1 = rid <;> simp [h2]

theorem assocGet_markTerminated (h : List (Nat × RunObj)) (rid k : Nat) :
    assocGet (markTerminated h rid) k
      = (assocGet h k).map (fun v => if k = rid then markRun v else v) := by
  induction h with
  | nil => simp [markTerminated, assocGet]
  | cons p t ih =>
      obtain ⟨k2, v2⟩ := p
      unfold markTerminated at ih ⊢
      simp only [List.map_cons]
      by_cases h3 : k2 = rid
      · rw [if_pos h3]
        by_cases h2 : k2 = k
        · subst h2; subst h3
          simp [assocGet]
        · simp [assocGet, h2, ih]
      · rw [if_neg h3]
        by_cases h2 : k2 = k
        · subst h2
          simp [assocGet, h3]
        · simp [assocGet, h2, ih]

/-! ### Frame lemmas for the manager operations -/

namespace ScheduleManager

theorem terminateRun_scheduleRunCounts (m : ScheduleManager) (rid : Nat) :
    (m.terminateRun rid).scheduleRunCounts = m.scheduleRunCounts := rfl

theorem terminateRun_memoryCollections (m : ScheduleManager) (rid : Nat) :
    (m.terminateRun rid).memoryCollections = m.memoryCollections := rfl

theorem terminateRun_headers (m : ScheduleManager) (rid : Nat) :
    (m.terminateRun rid).headers = m.headers := rfl

theorem terminateRun_schedules (m : ScheduleManager) (rid : Nat) :
    (m.terminateRun rid).schedules = m.schedules := rfl

theorem terminateRun_timers (m : ScheduleManager) (rid : Nat) :
    (m.terminateRun rid).timers = m.timers := rfl

theorem terminateRun_nextRunId (m : ScheduleManager) (rid : Nat) :
    (m.terminateRun rid).nextRunId = m.nextRunId := rfl

theorem terminateRun_nextRef (m : ScheduleManager) (rid : Nat) :
    (m.terminateRun rid).nextRef = m.nextRef := rfl

theorem terminateRun_warnings (m : ScheduleManager) (rid : Nat) :
    (m.terminateRun rid).warnings = m.warnings := rfl

theorem terminateRun_runHeap (m : ScheduleManager) (rid : Nat) :
    (m.terminateRun rid).runHeap = markTerminated m.runHeap rid := rfl

theorem terminateRun_scheduleRuns (m : ScheduleManager) (rid : Nat) :
    (m.terminateRun rid).scheduleRuns
      = splice1 m.scheduleRuns (jsIndexOf m.scheduleRuns rid) := rfl

theorem incrementRunCount_others (m : ScheduleManager) (sid : Nat) :
    (m.incrementRunCount sid).scheduleRuns = m.scheduleRuns
      ∧ (m.incrementRunCount sid).runHeap = m.runHeap
      ∧ (m.incrementRunCount sid).memoryCollections = m.memoryCollections
      ∧ (m.incrementRunCount sid).headers = m.headers
      ∧ (m.incrementRunCount sid).schedules = m.schedules
      ∧ (m.incrementRunCount sid).timers = m.timers
      ∧ (m.incrementRunCount sid).nextRunId = m.nextRunId
      ∧ (m.incrementRunCount sid).nextRef = m.nextRef
      ∧ (m.incrementRunCount sid).warnings = m.warnings :=
  ⟨rfl, rfl, rfl, rfl, rfl, rfl, rfl, rfl, rfl⟩

/-! ### Folding terminateRun over a list of run ids -/

theorem foldl_terminateRun_scheduleRunCounts (ys : List Nat) (m : ScheduleManager) :
    (ys.foldl terminateRun m).scheduleRunCounts = m.scheduleRunCounts := by
  induction ys generalizing m with
  | nil => rfl
  | cons y t ih => rw [List.foldl_cons, ih]; rfl

theorem foldl_terminateRun_memoryCollections (ys : List Nat) (m : ScheduleManager) :
    (ys.foldl terminateRun m).memoryCollections = m.memoryCollections := by
  induction ys generalizing m with
  | nil => rfl
  | cons y t ih => rw [List.foldl_cons, ih]; rfl

theorem foldl_terminateRun_headers (ys : List Nat) (m : ScheduleManager) :
    (ys.foldl terminateRun m).headers = m.headers := by
  induction ys generalizing m with
  | nil => rfl
  | cons y t ih => rw [List.foldl_cons, ih]; rfl

theorem foldl_terminateRun_schedules (ys : List Nat) (m : ScheduleManager) :
    (ys.foldl terminateRun m).schedules = m.schedules := by
  induction ys generalizing m with
  | nil => rfl
  | cons y t ih => rw [List.foldl_cons, ih]; rfl

theorem foldl_terminateRun_timers (ys : List Nat) (m : ScheduleManager) :
    (ys.foldl terminateRun m).timers = m.timers := by
  induction ys generalizing m with
  | nil => rfl
  | cons y t ih => rw [List.foldl_cons, ih]; rfl

theorem foldl_terminateRun_nextRunId (ys : List Nat) (m : ScheduleManager) :
    (ys.foldl terminateRun m).nextRunId = m.nextRunId := by
  induction ys generalizing m with
  | nil => rfl
  | cons y t ih => rw [List.foldl_cons, ih]; rfl

theorem foldl_terminateRun_nextRef (ys : List Nat) (m : ScheduleManager) :
    (ys.foldl terminateRun m).nextRef = m.nextRef := by
  induction ys generalizing m with
  | nil => rfl
  | cons y t ih => rw [List.foldl_cons, ih]; rfl

theorem foldl_terminateRun_warnings (ys : List Nat) (m : ScheduleManager) :
    (ys.foldl terminateRun m).warnings = m.warnings := by
  induction ys generalizing m with
  | nil => rfl
  | cons y t ih => rw [List.foldl_cons, ih]; rfl

theorem foldl_terminateRun_debugFeedIDs (ys : List Nat) (m : ScheduleManager) :
    (ys.foldl terminateRun m).debugFeedIDs = m.debugFeedIDs := by
  induction ys generalizing m with
  | nil => rfl
  | cons y t ih => rw [List.foldl_cons, ih]; rfl

theorem foldl_terminateRun_runHeap (ys : List Nat) (m : ScheduleManager) :
    (ys.foldl terminateRun m).runHeap = ys.foldl markTerminated m.runHeap := by
  induction ys generalizing m with
  | nil => rfl
  | cons y t ih => rw [List.foldl_cons, List.foldl_cons, ih]; rfl

theorem foldl_terminateRun_scheduleRuns (ys : List Nat) (m : ScheduleManager) :
    (ys.foldl terminateRun m).scheduleRuns
      = ys.foldl (fun l y => splice1 l (jsIndexOf l y)) m.scheduleRuns := by
  induction ys generalizing m with
  | nil => rfl
  | cons y t ih => rw [List.foldl_cons, List.foldl_cons, ih]; rfl

end ScheduleManager

theorem foldl_markTerminated_map_fst (ys : List Nat) (h : List (Nat × RunObj)) :
    (ys.foldl markTerminated h).map Prod.fst = h.map Prod.fst := by
  induction ys generalizing h with
  | nil => rfl
  | cons y t ih => rw [List.foldl_cons, ih, markTerminated_map_fst]

theorem foldl_markTerminated_get (ys : List Nat) (h : List (Nat × RunObj)) (k : Nat) :
    assocGet (ys.foldl markTerminated h) k
      = (assocGet h k).map (fun v => if ys.contains k then markRun v else v) := by
  induction ys generalizing h with
  | nil => cases hk : assocGet h k <;> simp [hk]
  | cons y t ih =>
      rw [List.foldl_cons, ih, assocGet_markTerminated, Option.map_map]
      cases hk : assocGet h k
      · simp
      · by_cases hky : k = y
        · subst hky
          by_cases hc : t.contains k <;>
            simp [hc, Function.comp, markRun, List.contains_cons]
        · by_cases hc : t.contains k <;>
            simp [hc, hky, Function.comp, List.contains_cons]

theorem foldl_spliceIdx_eq_foldl_erase (ys : List Nat) : ∀ (xs : List Nat), xs.Nodup →
    ys.Nodup → (∀ y ∈ ys, y ∈ xs) →
    ys.foldl (fun l y => splice1 l (jsIndexOf l y)) xs
      = ys.foldl (fun l y => l.erase y) xs := by
  induction ys with
  | nil => intro xs _ _ _; rfl
  | cons y t ih =>
      intro xs hnd hynd hsub
      rw [List.foldl_cons, List.foldl_cons]
      have hy : y ∈ xs := hsub y (List.mem_cons_self y t)
      simp only [splice1_jsIndexOf_of_mem xs y hy]
      apply ih (xs.erase y) (hnd.erase y) (List.Nodup.of_cons hynd)
      intro z hz
      have hzy : z ≠ y := by
        intro hzy; subst hzy
        exact (List.nodup_cons.mp hynd).1 hz
      exact (List.mem_erase_of_ne hzy).mpr (hsub z (List.mem_cons_of_mem y hz))

theorem foldl_erase_eq_filter (ys : List Nat) : ∀ (xs : List Nat), xs.Nodup →
    ys.foldl (fun l y => l.erase y) xs = xs.filter (fun x => !(ys.contains x)) := by
  induction ys with
  | nil => intro xs _; simp
  | cons y t ih =>
      intro xs hnd
      rw [List.foldl_cons, ih (xs.erase y) (hnd.erase y),
        List.Nodup.erase_eq_filter hnd, List.filter_filter]
      apply List.filter_congr
      intro a _
      have hmem : t.contains a = decide (a ∈ t) := by
        by_cases h : a ∈ t <;> simp [h, List.elem_iff]
      by_cases h1 : a = y <;> by_cases h2 : a ∈ t <;>
        simp [List.contains_cons, h1, h2, hmem, bne]

/-! ### Characterization of terminateScheduleRuns and run -/

namespace ScheduleManager

theorem terminateScheduleRuns_runHeap_get (m : ScheduleManager) (sid k : Nat) :
    assocGet (m.terminateScheduleRuns sid).runHeap k
      = (assocGet m.runHeap k).map
          (fun v => if (m.getRuns sid).contains k then markRun v else v) := by
  unfold terminateScheduleRuns
  rw [foldl_terminateRun_runHeap, foldl_markTerminated_get]

theorem terminateScheduleRuns_scheduleRuns (m : ScheduleManager) (sid : Nat)
    (hnd : m.scheduleRuns.Nodup) :
    (m.terminateScheduleRuns sid).scheduleRuns
      = m.scheduleRuns.filter (fun r => !(belongsTo m.runHeap r sid)) := by
  unfold terminateScheduleRuns
  rw [foldl_terminateRun_scheduleRuns]
  have h1 : ∀ y ∈ m.getRuns sid, y ∈ m.scheduleRuns := fun y hy => (List.mem_filter.mp hy).1
  have hynd : (m.getRuns sid).Nodup := by
    unfold getRuns
    exact List.Nodup.filter _ hnd
  rw [foldl_spliceIdx_eq_foldl_erase _ _ hnd hynd h1,
    foldl_erase_eq_filter _ _ hnd]
  apply List.filter_congr
  intro a ha
  have h2 : (m.getRuns sid).contains a = belongsTo m.runHeap a sid := by
    by_cases hb : belongsTo m.runHeap a sid = true
    · rw [hb]
      exact List.elem_iff.mpr (List.mem_filter.mpr ⟨ha, hb⟩)
    · have hb2 : belongsTo m.runHeap a sid = false := by
        cases hb3 : belongsTo m.runHeap a sid
        · rfl
        · exact absurd hb3 hb
      rw [hb2]
      cases hcon : (m.getRuns sid).contains a
      · rfl
      · exact absurd (List.mem_filter.mp (List.elem_iff.mp hcon)).2 hb
  rw [h2]

/-- Equality of the fields of a run object fixed at construction time. -/
def FieldsEq (v v2 : RunObj) : Prop :=
  v2.schedule = v.schedule ∧ v2.runCount = v.runCount
    ∧ v2.memory = v.memory ∧ v2.headers = v.headers

theorem fieldsEq_refl (v : RunObj) : FieldsEq v v := ⟨rfl, rfl, rfl, rfl⟩

theorem fieldsEq_markRun (v : RunObj) : FieldsEq v (markRun v) := ⟨rfl, rfl, rfl, rfl⟩

theorem fieldsEq_trans {a b c : RunObj} (h1 : FieldsEq a b) (h2 : FieldsEq b c) :
    FieldsEq a c :=
  ⟨h2.1.trans h1.1, h2.2.1.trans h1.2.1, h2.2.2.1.trans h1.2.2.1, h2.2.2.2.trans h1.2.2.2⟩

/-- The run object passed to the `ScheduleRun` constructor by `run(schedule)`. -/
def newRunObj (m : ScheduleManager) (s : Schedule) : RunObj :=
  { schedule := s.id, runCount := jsGet m.scheduleRunCounts s.id,
    memory := assocGet m.memoryCollections s.id,
    headers := assocGet m.headers s.id, terminated := false, listeners := true }

theorem run_scheduleRunCounts (env : Env) (m : ScheduleManager) (s : Schedule) :
    (run env m s).scheduleRunCounts = m.scheduleRunCounts := by
  unfold run
  by_cases h : atMaxRuns env m s <;>
    simp [h, terminateScheduleRuns, foldl_terminateRun_scheduleRunCounts]

theorem run_memoryCollections (env : Env) (m : ScheduleManager) (s : Schedule) :
    (run env m s).memoryCollections = m.memoryCollections := by
  unfold run
  by_cases h : atMaxRuns env m s <;>
    simp [h, terminateScheduleRuns, foldl_terminateRun_memoryCollections]

theorem run_headers (env : Env) (m : ScheduleManager) (s : Schedule) :
    (run env m s).headers = m.headers := by
  unfold run
  by_cases h : atMaxRuns env m s <;>
    simp [h, terminateScheduleRuns, foldl_terminateRun_headers]

theorem run_schedules (env : Env) (m : ScheduleManager) (s : Schedule) :
    (run env m s).schedules = m.schedules := by
  unfold run
  by_cases h : atMaxRuns env m s <;>
    simp [h, terminateScheduleRuns, foldl_terminateRun_schedules]

theorem run_timers (env : Env) (m : ScheduleManager) (s : Schedule) :
    (run env m s).timers = m.timers := by
  unfold run
  by_cases h : atMaxRuns env m s <;>
    simp [h, terminateScheduleRuns, foldl_terminateRun_timers]

theorem run_nextRef (env : Env) (m : ScheduleManager) (s : Schedule) :
    (run env m s).nextRef = m.nextRef := by
  unfold run
  by_cases h : atMaxRuns env m s <;>
    simp [h, terminateScheduleRuns, foldl_terminateRun_nextRef]

theorem run_debugFeedIDs (env : Env) (m : ScheduleManager) (s : Schedule) :
    (run env m s).debugFeedIDs = m.debugFeedIDs := by
  unfold run
  by_cases h : atMaxRuns env m s <;>
    simp [h, terminateScheduleRuns, foldl_terminateRun_debugFeedIDs]

theorem run_nextRunId (env : Env) (m : ScheduleManager) (s : Schedule) :
    (run env m s).nextRunId = m.nextRunId + 1 := by
  unfold run
  by_cases h : atMaxRuns env m s <;>
    simp [h, terminateScheduleRuns, foldl_terminateRun_nextRunId]

theorem run_warnings (env : Env) (m : ScheduleManager) (s : Schedule) :
    (run env m s).warnings
      = if atMaxRuns env m s then m.warnings ++ [(m.getRuns s.id).length]
        else m.warnings := by
  unfold run
  by_cases h : atMaxRuns env m s <;>
    simp [h, terminateScheduleRuns, foldl_terminateRun_warnings]

theorem run_runHeap (env : Env) (m : ScheduleManager) (s : Schedule) :
    (run env m s).runHeap
      = (if atMaxRuns env m s then (m.getRuns s.id).foldl markTerminated m.runHeap
         else m.runHeap) ++ [(m.nextRunId, newRunObj m s)] := by
  unfold run
  by_cases h : atMaxRuns env m s <;>
    simp [h, newRunObj, getRuns, terminateScheduleRuns, foldl_terminateRun_runHeap,
      foldl_terminateRun_scheduleRunCounts, foldl_terminateRun_memoryCollections,
      foldl_terminateRun_headers, foldl_terminateRun_nextRunId]

theorem run_scheduleRuns (env : Env) (m : ScheduleManager) (s : Schedule) :
    (run env m s).scheduleRuns
      = (if atMaxRuns env m s then
          (m.getRuns s.id).foldl (fun l y => splice1 l (jsIndexOf l y)) m.scheduleRuns
         else m.scheduleRuns) ++ [m.nextRunId] := by
  unfold run
  by_cases h : atMaxRuns env m s <;>
    simp [h, getRuns, terminateScheduleRuns, foldl_terminateRun_scheduleRuns,
      foldl_terminateRun_nextRunId]

end ScheduleManager

namespace ScheduleManager

theorem run_get_new (env : Env) (m : ScheduleManager) (s : Schedule)
    (hb : ∀ k ∈ m.runHeap.map Prod.fst, k < m.nextRunId) :
    assocGet (run env m s).runHeap m.nextRunId = some (newRunObj m s) := by
  have hnone : assocGet m.runHeap m.nextRunId = none := by
    rw [assocGet_eq_none_iff]
    intro hmem
    exact absurd (hb _ hmem) (by omega)
  rw [run_runHeap]
  by_cases h : atMaxRuns env m s
  · rw [if_pos h]
    rw [assocGet_append_none]
    · simp [assocGet]
    · rw [foldl_markTerminated_get, hnone]
      rfl
  · rw [if_neg h, assocGet_append_none _ _ _ hnone]
    simp [assocGet]

theorem run_get_old (env : Env) (m : ScheduleManager) (s : Schedule) (k : Nat) (v : RunObj)
    (hv : assocGet m.runHeap k = some v) :
    ∃ v2, assocGet (run env m s).runHeap k = some v2 ∧ FieldsEq v v2 := by
  rw [run_runHeap]
  by_cases h : atMaxRuns env m s
  · rw [if_pos h]
    have h1 : assocGet ((m.getRuns s.id).foldl markTerminated m.runHeap) k
        = some (if (m.getRuns s.id).contains k then markRun v else v) := by
      rw [foldl_markTerminated_get, hv]
      rfl
    rw [assocGet_append_some _ _ _ _ h1]
    refine ⟨_, rfl, ?_⟩
    cases hc : (m.getRuns s.id).contains k
    · rw [if_neg (by simp)]
      exact fieldsEq_refl v
    · rw [if_pos rfl]
      exact fieldsEq_markRun v
  · rw [if_neg h, assocGet_append_some _ _ _ _ hv]
    exact ⟨v, rfl, fieldsEq_refl v⟩

theorem run_getRuns_pos (env : Env) (m : ScheduleManager) (s : Schedule)
    (h : atMaxRuns env m s = true) (hwf : WF m) :
    (run env m s).getRuns s.id = [m.nextRunId] := by
  obtain ⟨hnd, hb, hmem⟩ := hwf
  have hruns : (run env m s).scheduleRuns
      = m.scheduleRuns.filter (fun r => !(belongsTo m.runHeap r s.id)) ++ [m.nextRunId] := by
    rw [run_scheduleRuns, if_pos h]
    congr 1
    have h2 := terminateScheduleRuns_scheduleRuns m s.id hnd
    rw [terminateScheduleRuns, foldl_terminateRun_scheduleRuns] at h2
    exact h2
  unfold getRuns
  rw [hruns, List.filter_append]
  have hnew : belongsTo (run env m s).runHeap m.nextRunId s.id = true := by
    unfold belongsTo
    rw [run_get_new env m s hb]
    simp [newRunObj]
  have hold : ∀ r ∈ m.scheduleRuns.filter (fun r => !(belongsTo m.runHeap r s.id)),
      belongsTo (run env m s).runHeap r s.id = false := by
    intro r hr
    obtain ⟨hrs, hrb⟩ := List.mem_filter.mp hr
    have hrk : r ∈ m.runHeap.map Prod.fst := hmem r hrs
    have hsome : ∃ v, assocGet m.runHeap r = some v := by
      cases hg : assocGet m.runHeap r
      · exact absurd ((assocGet_eq_none_iff _ _).mp hg) (by simp [hrk])
      · exact ⟨_, rfl⟩
    obtain ⟨v, hv⟩ := hsome
    obtain ⟨v2, hv2, hfe⟩ := run_get_old env m s r v hv
    unfold belongsTo
    rw [hv2]
    show (v2.schedule == s.id) = false
    have hvb : (v.schedule == s.id) = false := by
      have := hrb
      unfold belongsTo at this
      rw [hv] at this
      simpa using this
    rw [hfe.1]
    exact hvb
  rw [List.filter_eq_nil_iff.mpr ?h1]
  · simp [hnew]
  · intro r hr
    simp [hold r hr]

theorem WF_terminateRun (m : ScheduleManager) (rid : Nat) (h : WF m) :
    WF (m.terminateRun rid) := by
  obtain ⟨h1, h2, h3⟩ := h
  refine ⟨?_, ?_, ?_⟩
  · rw [terminateRun_scheduleRuns]
    exact h1.sublist (splice1_sublist _ _)
  · intro k hk
    rw [terminateRun_runHeap, markTerminated_map_fst] at hk
    rw [terminateRun_nextRunId]
    exact h2 k hk
  · intro r hr
    rw [terminateRun_scheduleRuns] at hr
    rw [terminateRun_runHeap, markTerminated_map_fst]
    exact h3 r ((splice1_sublist _ _).mem hr)

theorem WF_foldl_terminateRun (ys : List Nat) (m : ScheduleManager) (h : WF m) :
    WF (ys.foldl terminateRun m) := by
  induction ys generalizing m with
  | nil => exact h
  | cons y t ih => rw [List.foldl_cons]; exact ih _ (WF_terminateRun _ _ h)

theorem foldl_splice_sublist (ys : List Nat) : ∀ (xs : List Nat),
    List.Sublist (ys.foldl (fun l y => splice1 l (jsIndexOf l y)) xs) xs := by
  induction ys with
  | nil => intro xs; exact List.Sublist.refl xs
  | cons y t ih =>
      intro xs
      rw [List.foldl_cons]
      exact (ih (splice1 xs (jsIndexOf xs y))).trans (splice1_sublist _ _)

theorem run_runHeap_map_fst (env : Env) (m : ScheduleManager) (s : Schedule) :
    (run env m s).runHeap.map Prod.fst = m.runHeap.map Prod.fst ++ [m.nextRunId] := by
  rw [run_runHeap, List.map_append]
  by_cases hc : atMaxRuns env m s <;> simp [hc, foldl_markTerminated_map_fst]

theorem WF_run (env : Env) (m : ScheduleManager) (s : Schedule) (h : WF m) :
    WF (run env m s) := by
  obtain ⟨h1, h2, h3⟩ := h
  have hsub : List.Sublist
      (if atMaxRuns env m s then
        (m.getRuns s.id).foldl (fun l y => splice1 l (jsIndexOf l y)) m.scheduleRuns
       else m.scheduleRuns) m.scheduleRuns := by
    by_cases hc : atMaxRuns env m s
    · rw [if_pos hc]; exact foldl_splice_sublist _ _
    · rw [if_neg hc]
  refine ⟨?_, ?_, ?_⟩
  · rw [run_scheduleRuns, List.nodup_append]
    refine ⟨h1.sublist hsub, List.nodup_singleton _, ?_⟩
    intro a ha hb
    have ham : a ∈ m.scheduleRuns := hsub.mem ha
    have hlt : a < m.nextRunId := h2 a (h3 a ham)
    simp at hb
    omega
  · intro k hk
    rw [run_runHeap_map_fst] at hk
    rw [run_nextRunId]
    rcases List.mem_append.mp hk with hk | hk
    · have := h2 k hk; omega
    · simp at hk; omega
  · intro r hr
    rw [run_scheduleRuns] at hr
    rw [run_runHeap_map_fst]
    rcases List.mem_append.mp hr with hr | hr
    · exact List.mem_append_left _ (h3 r (hsub.mem hr))
    · exact List.mem_append_right _ hr

theorem WF_incrementRunCount (m : ScheduleManager) (sid : Nat) (h : WF m) :
    WF (m.incrementRunCount sid) := h

theorem WF_clearTimers (m : ScheduleManager) (h : WF m) : WF m.clearTimers := h

theorem WF_addSchedule (env : Env) (m : ScheduleManager) (s : Schedule) (h : WF m) :
    WF (addSchedule env m s) := h

theorem WF_finishRun (m : ScheduleManager) (rid : Nat) (h : WF m) : WF (m.finishRun rid) := by
  cases hg : assocGet m.runHeap rid with
  | none =>
      simp only [finishRun, hg]
      exact h
  | some v =>
      simp only [finishRun, hg]
      cases hl : v.listeners
      · rw [if_neg (by simp [hl])]
        exact h
      · rw [if_pos (by simp [hl])]
        exact WF_incrementRunCount _ _ (WF_terminateRun _ _ h)

theorem WF_terminateScheduleRuns (m : ScheduleManager) (sid : Nat) (h : WF m) :
    WF (m.terminateScheduleRuns sid) :=
  WF_foldl_terminateRun _ _ h

end ScheduleManager

/-! ### beginTimers characterization -/

namespace ScheduleManager

theorem timerStep_timers (env : Env) (acc : ScheduleManager) (s : Schedule) :
    (timerStep env acc s).timers
      = acc.timers ++ [(s.id, s.refreshRateMinutes * 60000)] := by
  unfold timerStep
  simp [run_timers]

theorem timerStep_schedules (env : Env) (acc : ScheduleManager) (s : Schedule) :
    (timerStep env acc s).schedules = acc.schedules := run_schedules env acc s

theorem timerStep_nextRunId (env : Env) (acc : ScheduleManager) (s : Schedule) :
    (timerStep env acc s).nextRunId = acc.nextRunId + 1 := run_nextRunId env acc s

theorem timerStep_scheduleRunCounts (env : Env) (acc : ScheduleManager) (s : Schedule) :
    (timerStep env acc s).scheduleRunCounts = acc.scheduleRunCounts :=
  run_scheduleRunCounts env acc s

theorem timerStep_memoryCollections (env : Env) (acc : ScheduleManager) (s : Schedule) :
    (timerStep env acc s).memoryCollections = acc.memoryCollections :=
  run_memoryCollections env acc s

theorem timerStep_headers (env : Env) (acc : ScheduleManager) (s : Schedule) :
    (timerStep env acc s).headers = acc.headers := run_headers env acc s

theorem timerStep_nextRef (env : Env) (acc : ScheduleManager) (s : Schedule) :
    (timerStep env acc s).nextRef = acc.nextRef := run_nextRef env acc s

theorem WF_timerStep (env : Env) (acc : ScheduleManager) (s : Schedule) (h : WF acc) :
    WF (timerStep env acc s) := WF_run env acc s h

theorem foldl_timerStep_timers (env : Env) (ss : List Schedule) : ∀ acc : ScheduleManager,
    (ss.foldl (timerStep env) acc).timers
      = acc.timers ++ ss.map (fun s => (s.id, s.refreshRateMinutes * 60000)) := by
  induction ss with
  | nil => intro acc; simp
  | cons s t ih =>
      intro acc
      rw [List.foldl_cons, ih, timerStep_timers]
      simp

theorem foldl_timerStep_schedules (env : Env) (ss : List Schedule) : ∀ acc : ScheduleManager,
    (ss.foldl (timerStep env) acc).schedules = acc.schedules := by
  induction ss with
  | nil => intro acc; rfl
  | cons s t ih => intro acc; rw [List.foldl_cons, ih, timerStep_schedules]

theorem foldl_timerStep_nextRunId (env : Env) (ss : List Schedule) : ∀ acc : ScheduleManager,
    (ss.foldl (timerStep env) acc).nextRunId = acc.nextRunId + ss.length := by
  induction ss with
  | nil => intro acc; rfl
  | cons s t ih =>
      intro acc
      rw [List.foldl_cons, ih, timerStep_nextRunId]
      simp
      omega

theorem foldl_timerStep_scheduleRunCounts (env : Env) (ss : List Schedule) :
    ∀ acc : ScheduleManager,
    (ss.foldl (timerStep env) acc).scheduleRunCounts = acc.scheduleRunCounts := by
  induction ss with
  | nil => intro acc; rfl
  | cons s t ih => intro acc; rw [List.foldl_cons, ih, timerStep_scheduleRunCounts]

theorem foldl_timerStep_memoryCollections (env : Env) (ss : List Schedule) :
    ∀ acc : ScheduleManager,
    (ss.foldl (timerStep env) acc).memoryCollections = acc.memoryCollections := by
  induction ss with
  | nil => intro acc; rfl
  | cons s t ih => intro acc; rw [List.foldl_cons, ih, timerStep_memoryCollections]

theorem foldl_timerStep_headers (env : Env) (ss : List Schedule) : ∀ acc : ScheduleManager,
    (ss.foldl (timerStep env) acc).headers = acc.headers := by
  induction ss with
  | nil => intro acc; rfl
  | cons s t ih => intro acc; rw [List.foldl_cons, ih, timerStep_headers]

theorem foldl_timerStep_nextRef (env : Env) (ss : List Schedule) : ∀ acc : ScheduleManager,
    (ss.foldl (timerStep env) acc).nextRef = acc.nextRef := by
  induction ss with
  | nil => intro acc; rfl
  | cons s t ih => intro acc; rw [List.foldl_cons, ih, timerStep_nextRef]

theorem WF_foldl_timerStep (env : Env) (ss : List Schedule) : ∀ acc : ScheduleManager,
    WF acc → WF (ss.foldl (timerStep env) acc) := by
  induction ss with
  | nil => intro acc h; exact h
  | cons s t ih =>
      intro acc h
      rw [List.foldl_cons]
      exact ih _ (WF_timerStep env acc s h)

theorem beginTimers_timers (env : Env) (m : ScheduleManager) :
    (beginTimers env m).timers
      = m.schedules.map (fun s => (s.id, s.refreshRateMinutes * 60000)) := by
  unfold beginTimers clearTimers
  rw [foldl_timerStep_timers]
  simp

theorem beginTimers_schedules (env : Env) (m : ScheduleManager) :
    (beginTimers env m).schedules = m.schedules := by
  unfold beginTimers clearTimers
  rw [foldl_timerStep_schedules]

theorem beginTimers_nextRunId (env : Env) (m : ScheduleManager) :
    (beginTimers env m).nextRunId = m.nextRunId + m.schedules.length := by
  unfold beginTimers clearTimers
  rw [foldl_timerStep_nextRunId]

theorem beginTimers_scheduleRunCounts (env : Env) (m : ScheduleManager) :
    (beginTimers env m).scheduleRunCounts = m.scheduleRunCounts := by
  unfold beginTimers clearTimers
  rw [foldl_timerStep_scheduleRunCounts]

theorem beginTimers_memoryCollections (env : Env) (m : ScheduleManager) :
    (beginTimers env m).memoryCollections = m.memoryCollections := by
  unfold beginTimers clearTimers
  rw [foldl_timerStep_memoryCollections]

theorem beginTimers_headers (env : Env) (m : ScheduleManager) :
    (beginTimers env m).headers = m.headers := by
  unfold beginTimers clearTimers
  rw [foldl_timerStep_headers]

theorem WF_beginTimers (env : Env) (m : ScheduleManager) (h : WF m) :
    WF (beginTimers env m) := by
  unfold beginTimers
  exact WF_foldl_timerStep env _ _ (WF_clearTimers m h)

end ScheduleManager

/-! ### Lifecycle operation traces -/

/-- The run-lifecycle events that the manager can process after schedules are
registered: a dispatch of a schedule (immediate or timer-driven), delivery of
one run's finish event, forced termination of one run or of all of a
schedule's runs, and timer management. -/
inductive LCOp where
  | dispatch (s : Schedule)
  | finish (rid : Nat)
  | terminate (rid : Nat)
  | terminateSchedule (sid : Nat)
  | beginTimersOp
  | clearTimersOp
deriving DecidableEq, Repr

namespace ScheduleManager

/-- Apply one lifecycle event to the manager state. -/
def applyLC (env : Env) (m : ScheduleManager) : LCOp → ScheduleManager
  | .dispatch s => run env m s
  | .finish rid => m.finishRun rid
  | .terminate rid => m.terminateRun rid
  | .terminateSchedule sid => m.terminateScheduleRuns sid
  | .beginTimersOp => beginTimers env m
  | .clearTimersOp => m.clearTimers

/-- Apply a trace of lifecycle events from left to right. -/
def applyTrace (env : Env) (m : ScheduleManager) : List LCOp → ScheduleManager
  | [] => m
  | op :: rest => applyTrace env (applyLC env m op) rest

/-- The schedule whose run counter the finish handler of run `rid` would
increment if the finish event were delivered now; `none` when the handler no
longer fires (listeners removed or unknown run). -/
def finishTarget (m : ScheduleManager) (rid : Nat) : Option Nat :=
  match assocGet m.runHeap rid with
  | some v => if v.listeners then some v.schedule else none
  | none => none

/-- Whether a single lifecycle event is a normal completion of a run of
schedule `sid` in state `m` (1 if so, 0 otherwise). -/
def completionHit (m : ScheduleManager) (sid : Nat) : LCOp → Nat
  | .finish rid => if finishTarget m rid == some sid then 1 else 0
  | _ => 0

/-- Number of finish events in a trace whose handler fires for a run of
schedule `sid`, counted against the evolving state. -/
def countCompletions (env : Env) (m : ScheduleManager) (sid : Nat) : List LCOp → Nat
  | [] => 0
  | op :: rest => completionHit m sid op + countCompletions env (applyLC env m op) sid rest

theorem finishRun_memoryCollections (m : ScheduleManager) (rid : Nat) :
    (m.finishRun rid).memoryCollections = m.memoryCollections := by
  cases hg : assocGet m.runHeap rid with
  | none => simp only [finishRun, hg]
  | some v =>
      simp only [finishRun, hg]
      cases hl : v.listeners
      · rw [if_neg (by simp [hl])]
      · rw [if_pos (by simp [hl])]
        rfl

theorem finishRun_headers (m : ScheduleManager) (rid : Nat) :
    (m.finishRun rid).headers = m.headers := by
  cases hg : assocGet m.runHeap rid with
  | none => simp only [finishRun, hg]
  | some v =>
      simp only [finishRun, hg]
      cases hl : v.listeners
      · rw [if_neg (by simp [hl])]
      · rw [if_pos (by simp [hl])]
        rfl

theorem finishRun_schedules (m : ScheduleManager) (rid : Nat) :
    (m.finishRun rid).schedules = m.schedules := by
  cases hg : assocGet m.runHeap rid with
  | none => simp only [finishRun, hg]
  | some v =>
      simp only [finishRun, hg]
      cases hl : v.listeners
      · rw [if_neg (by simp [hl])]
      · rw [if_pos (by simp [hl])]
        rfl

theorem applyLC_memoryCollections (env : Env) (m : ScheduleManager) (op : LCOp) :
    (applyLC env m op).memoryCollections = m.memoryCollections := by
  cases op with
  | dispatch s => exact run_memoryCollections env m s
  | finish rid => exact finishRun_memoryCollections m rid
  | terminate rid => rfl
  | terminateSchedule sid =>
      show (m.terminateScheduleRuns sid).memoryCollections = m.memoryCollections
      unfold terminateScheduleRuns
      exact foldl_terminateRun_memoryCollections _ _
  | beginTimersOp => exact beginTimers_memoryCollections env m
  | clearTimersOp => rfl

theorem applyLC_headers (env : Env) (m : ScheduleManager) (op : LCOp) :
    (applyLC env m op).headers = m.headers := by
  cases op with
  | dispatch s => exact run_headers env m s
  | finish rid => exact finishRun_headers m rid
  | terminate rid => rfl
  | terminateSchedule sid =>
      show (m.terminateScheduleRuns sid).headers = m.headers
      unfold terminateScheduleRuns
      exact foldl_terminateRun_headers _ _
  | beginTimersOp => exact beginTimers_headers env m
  | clearTimersOp => rfl

theorem applyLC_schedules (env : Env) (m : ScheduleManager) (op : LCOp) :
    (applyLC env m op).schedules = m.schedules := by
  cases op with
  | dispatch s => exact run_schedules env m s
  | finish rid => exact finishRun_schedules m rid
  | terminate rid => rfl
  | terminateSchedule sid =>
      show (m.terminateScheduleRuns sid).schedules = m.schedules
      unfold terminateScheduleRuns
      exact foldl_terminateRun_schedules _ _
  | beginTimersOp => exact beginTimers_schedules env m
  | clearTimersOp => rfl

theorem WF_applyLC (env : Env) (m : ScheduleManager) (op : LCOp) (h : WF m) :
    WF (applyLC env m op) := by
  cases op with
  | dispatch s => exact WF_run env m s h
  | finish rid => exact WF_finishRun m rid h
  | terminate rid => exact WF_terminateRun m rid h
  | terminateSchedule sid => exact WF_terminateScheduleRuns m sid h
  | beginTimersOp => exact WF_beginTimers env m h
  | clearTimersOp => exact WF_clearTimers m h

theorem applyTrace_memoryCollections (env : Env) (ops : List LCOp) :
    ∀ m : ScheduleManager, (applyTrace env m ops).memoryCollections = m.memoryCollections := by
  induction ops with
  | nil => intro m; rfl
  | cons op rest ih =>
      intro m
      show (applyTrace env (applyLC env m op) rest).memoryCollections = _
      rw [ih, applyLC_memoryCollections]

theorem applyTrace_headers (env : Env) (ops : List LCOp) :
    ∀ m : ScheduleManager, (applyTrace env m ops).headers = m.headers := by
  induction ops with
  | nil => intro m; rfl
  | cons op rest ih =>
      intro m
      show (applyTrace env (applyLC env m op) rest).headers = _
      rw [ih, applyLC_headers]

theorem applyTrace_schedules (env : Env) (ops : List LCOp) :
    ∀ m : ScheduleManager, (applyTrace env m ops).schedules = m.schedules := by
  induction ops with
  | nil => intro m; rfl
  | cons op rest ih =>
      intro m
      show (applyTrace env (applyLC env m op) rest).schedules = _
      rw [ih, applyLC_schedules]

theorem WF_applyTrace (env : Env) (ops : List LCOp) :
    ∀ m : ScheduleManager, WF m → WF (applyTrace env m ops) := by
  induction ops with
  | nil => intro m h; exact h
  | cons op rest ih =>
      intro m h
      exact ih _ (WF_applyLC env m op h)

end ScheduleManager

namespace ScheduleManager

/-- All run objects present in the heap of `m` are still present in `m2` with
their construction-time fields unchanged. -/
def PreservesRuns (m m2 : ScheduleManager) : Prop :=
  ∀ k v, assocGet m.runHeap k = some v →
    ∃ v2, assocGet m2.runHeap k = some v2 ∧ FieldsEq v v2

theorem preservesRuns_refl (m : ScheduleManager) : PreservesRuns m m :=
  fun _ v hv => ⟨v, hv, fieldsEq_refl v⟩

theorem preservesRuns_trans {a b c : ScheduleManager}
    (h1 : PreservesRuns a b) (h2 : PreservesRuns b c) : PreservesRuns a c := by
  intro k v hv
  obtain ⟨v2, hv2, hf2⟩ := h1 k v hv
  obtain ⟨v3, hv3, hf3⟩ := h2 k v2 hv2
  exact ⟨v3, hv3, fieldsEq_trans hf2 hf3⟩

theorem preservesRuns_terminateRun (m : ScheduleManager) (rid : Nat) :
    PreservesRuns m (m.terminateRun rid) := by
  intro k v hv
  rw [terminateRun_runHeap, assocGet_markTerminated, hv]
  refine ⟨if k = rid then markRun v else v, rfl, ?_⟩
  by_cases h : k = rid
  · rw [if_pos h]; exact fieldsEq_markRun v
  · rw [if_neg h]; exact fieldsEq_refl v

theorem preservesRuns_terminateScheduleRuns (m : ScheduleManager) (sid : Nat) :
    PreservesRuns m (m.terminateScheduleRuns sid) := by
  intro k v hv
  rw [terminateScheduleRuns_runHeap_get, hv]
  refine ⟨_, rfl, ?_⟩
  cases hc : (m.getRuns sid).contains k
  · show FieldsEq v (if false = true then markRun v else v)
    rw [if_neg (by simp)]
    exact fieldsEq_refl v
  · show FieldsEq v (if true = true then markRun v else v)
    rw [if_pos rfl]
    exact fieldsEq_markRun v

theorem preservesRuns_run (env : Env) (m : ScheduleManager) (s : Schedule) :
    PreservesRuns m (run env m s) :=
  fun k v hv => run_get_old env m s k v hv

theorem preservesRuns_finishRun (m : ScheduleManager) (rid : Nat) :
    PreservesRuns m (m.finishRun rid) := by
  cases hg : assocGet m.runHeap rid with
  | none =>
      simp only [finishRun, hg]
      exact preservesRuns_refl m
  | some v =>
      simp only [finishRun, hg]
      cases hl : v.listeners
      · rw [if_neg (by simp)]
        exact preservesRuns_refl m
      · rw [if_pos rfl]
        exact preservesRuns_terminateRun m rid

theorem preservesRuns_timerStep (env : Env) (acc : ScheduleManager) (s : Schedule) :
    PreservesRuns acc (timerStep env acc s) :=
  fun k v hv => run_get_old env acc s k v hv

theorem preservesRuns_foldl_timerStep (env : Env) (ss : List Schedule) :
    ∀ acc : ScheduleManager, PreservesRuns acc (ss.foldl (timerStep env) acc) := by
  induction ss with
  | nil => intro acc; exact preservesRuns_refl acc
  | cons s t ih =>
      intro acc
      rw [List.foldl_cons]
      exact preservesRuns_trans (preservesRuns_timerStep env acc s) (ih _)

theorem preservesRuns_beginTimers (env : Env) (m : ScheduleManager) :
    PreservesRuns m (beginTimers env m) := by
  show PreservesRuns m (List.foldl (timerStep env) m.clearTimers m.clearTimers.schedules)
  exact preservesRuns_foldl_timerStep env m.clearTimers.schedules m.clearTimers

theorem preservesRuns_applyLC (env : Env) (m : ScheduleManager) (op : LCOp) :
    PreservesRuns m (applyLC env m op) := by
  cases op with
  | dispatch s => exact preservesRuns_run env m s
  | finish rid => exact preservesRuns_finishRun m rid
  | terminate rid => exact preservesRuns_terminateRun m rid
  | terminateSchedule sid => exact preservesRuns_terminateScheduleRuns m sid
  | beginTimersOp => exact preservesRuns_beginTimers env m
  | clearTimersOp => exact preservesRuns_refl m

theorem preservesRuns_applyTrace (env : Env) (ops : List LCOp) :
    ∀ m : ScheduleManager, PreservesRuns m (applyTrace env m ops) := by
  induction ops with
  | nil => intro m; exact preservesRuns_refl m
  | cons op rest ih =>
      intro m
      exact preservesRuns_trans (preservesRuns_applyLC env m op) (ih _)

/-! ### Evolution of the run counters -/

theorem finishRun_jsGet (m : ScheduleManager) (rid sid : Nat) (c : Nat)
    (h : jsGet m.scheduleRunCounts sid = some c) :
    jsGet (m.finishRun rid).scheduleRunCounts sid
      = some (c + if finishTarget m rid == some sid then 1 else 0) := by
  cases hg : assocGet m.runHeap rid with
  | none =>
      simp only [finishRun, finishTarget, hg]
      have hb : ((none : Option Nat) == some sid) = false := rfl
      rw [hb]
      simpa using h
  | some v =>
      simp only [finishRun, finishTarget, hg]
      cases hl : v.listeners
      · rw [if_neg (by simp), if_neg (by simp)]
        simpa using h
      · rw [if_pos rfl, if_pos rfl]
        show jsGet (assocSet m.scheduleRunCounts v.schedule
          ((jsGet m.scheduleRunCounts v.schedule).map (· + 1))) sid = _
        by_cases hsid : v.schedule = sid
        · subst hsid
          rw [jsGet_assocSet_self, h]
          have hb : ((some v.schedule : Option Nat) == some v.schedule) = true := by simp
          rw [hb]
          rfl
        · rw [jsGet_assocSet_ne _ _ _ _ (fun he => hsid he.symm), h]
          have hb : ((some v.schedule : Option Nat) == some sid) = false := by
            simp [hsid]
          rw [hb]
          rfl

theorem applyLC_jsGet (env : Env) (m : ScheduleManager) (op : LCOp) (sid : Nat) (c : Nat)
    (h : jsGet m.scheduleRunCounts sid = some c) :
    jsGet (applyLC env m op).scheduleRunCounts sid
      = some (c + completionHit m sid op) := by
  cases op with
  | finish rid => exact finishRun_jsGet m rid sid c h
  | dispatch s =>
      show jsGet (run env m s).scheduleRunCounts sid = some (c + 0)
      rw [run_scheduleRunCounts]
      simpa using h
  | terminate rid =>
      show jsGet (m.terminateRun rid).scheduleRunCounts sid = some (c + 0)
      rw [terminateRun_scheduleRunCounts]
      simpa using h
  | terminateSchedule sid2 =>
      show jsGet (m.terminateScheduleRuns sid2).scheduleRunCounts sid = some (c + 0)
      unfold terminateScheduleRuns
      rw [foldl_terminateRun_scheduleRunCounts]
      simpa using h
  | beginTimersOp =>
      show jsGet (beginTimers env m).scheduleRunCounts sid = some (c + 0)
      rw [beginTimers_scheduleRunCounts]
      simpa using h
  | clearTimersOp =>
      show jsGet m.clearTimers.scheduleRunCounts sid = some (c + 0)
      simpa using h

theorem applyTrace_jsGet (env : Env) (ops : List LCOp) :
    ∀ (m : ScheduleManager) (sid c : Nat),
    jsGet m.scheduleRunCounts sid = some c →
    jsGet (applyTrace env m ops).scheduleRunCounts sid
      = some (c + countCompletions env m sid ops) := by
  induction ops with
  | nil =>
      intro m sid c h
      simpa [countCompletions] using h
  | cons op rest ih =>
      intro m sid c h
      have h2 := applyLC_jsGet env m op sid c h
      show jsGet (applyTrace env (applyLC env m op) rest).scheduleRunCounts sid = _
      rw [ih _ _ _ h2]
      simp only [countCompletions]
      congr 1
      exact Nat.add_assoc _ _ _

theorem countCompletions_append (env : Env) (xs : List LCOp) :
    ∀ (ys : List LCOp) (m : ScheduleManager) (sid : Nat),
    countCompletions env m sid (xs ++ ys)
      = countCompletions env m sid xs + countCompletions env (applyTrace env m xs) sid ys := by
  induction xs with
  | nil =>
      intro ys m sid
      show countCompletions env m sid ys = 0 + _
      simp [applyTrace]
  | cons op rest ih =>
      intro ys m sid
      simp only [List.cons_append, countCompletions, applyTrace, List.append_eq]
      rw [ih ys (applyLC env m op) sid]
      exact (Nat.add_assoc _ _ _).symm

end ScheduleManager

/-! ### Concrete fixtures -/

/-- A run object of schedule `sid` as constructed by a dispatch. -/
def runObjOf (sid : Nat) : RunObj :=
  { schedule := sid, runCount := some 0, memory := none, headers := none,
    terminated := false, listeners := true }

def cEnvOne : Env := { config := { parallelRuns := some 1 }, isMongoDatabase := true }

def cEnvTwo : Env := { config := { parallelRuns := some 2 }, isMongoDatabase := true }

def cEnvMongo : Env := { config := { parallelRuns := some 2 }, isMongoDatabase := true }

def cEnvNoMongo : Env := { config := { parallelRuns := some 2 }, isMongoDatabase := false }

def schedA : Schedule := { id := 0, refreshRateMinutes := 1, maxRunsOverride := none }

def schedOverride : Schedule := { id := 0, refreshRateMinutes := 1, maxRunsOverride := some 5 }

/-- Three registered runs of schedule 0. -/
def mThreeRuns : ScheduleManager :=
  { ScheduleManager.initial with
      scheduleRuns := [0, 1, 2],
      runHeap := [(0, runObjOf 0), (1, runObjOf 0), (2, runObjOf 0)],
      nextRunId := 3 }

/-- Two registered runs of schedule 0. -/
def mTwoRuns : ScheduleManager :=
  { ScheduleManager.initial with
      scheduleRuns := [0, 1],
      runHeap := [(0, runObjOf 0), (1, runObjOf 0)],
      nextRunId := 2 }

/-- Two registered runs of two different schedules. -/
def mTwoDistinct : ScheduleManager :=
  { ScheduleManager.initial with
      scheduleRuns := [0, 1],
      runHeap := [(0, runObjOf 0), (1, runObjOf 1)],
      nextRunId := 2 }

/-! ### Claim C1 -/

/-- Claim C1: the capacity check is exact equality: `atMaxRuns` is true iff the
number of currently registered runs of the schedule equals the configured
maximum, and a run count strictly above the maximum makes the check false. -/
theorem c1_atMaxRuns_exact_equality (env : Env) (m : ScheduleManager) (s : Schedule)
    (maxRuns : Nat) (h : env.config.parallelRuns = some maxRuns) :
    (ScheduleManager.atMaxRuns env m s = true ↔ (m.getRuns s.id).length = maxRuns)
    ∧ ((m.getRuns s.id).length > maxRuns
        → ScheduleManager.atMaxRuns env m s = false) := by
  have hm : ScheduleManager.atMaxRuns env m s = ((m.getRuns s.id).length == maxRuns) := by
    unfold ScheduleManager.atMaxRuns
    rw [h]
  constructor
  · rw [hm]
    simp
  · intro hgt
    rw [hm]
    have hne : (m.getRuns s.id).length ≠ maxRuns := by omega
    simp [hne]

/-- Witness for C1: with a configured maximum of 1 and three registered runs,
the check returns false even though the count strictly exceeds the maximum. -/
theorem c1_witness :
    (mThreeRuns.getRuns 0).length > 1
    ∧ ScheduleManager.atMaxRuns cEnvOne mThreeRuns schedA = false :=
  ⟨by decide, (c1_atMaxRuns_exact_equality cEnvOne mThreeRuns schedA 1 rfl).2 (by decide)⟩

/-! ### Claim C4 -/

/-- Counterexample for C4: re-registering an already-present schedule is not
idempotent: after one completed run the counter stands at 1, and a second
`addSchedule` of the same schedule resets it to 0, appends a duplicate entry
to the schedule list, and replaces the header cache with a fresh object. -/
theorem c4_counterexample :
    jsGet (ScheduleManager.finishRun
      (ScheduleManager.run cEnvMongo
        (ScheduleManager.addSchedule cEnvMongo ScheduleManager.initial schedA) schedA)
      0).scheduleRunCounts 0 = some 1
    ∧ jsGet (ScheduleManager.addSchedule cEnvMongo
        (ScheduleManager.finishRun
          (ScheduleManager.run cEnvMongo
            (ScheduleManager.addSchedule cEnvMongo ScheduleManager.initial schedA) schedA)
          0) schedA).scheduleRunCounts 0 = some 0
    ∧ (ScheduleManager.addSchedule cEnvMongo
        (ScheduleManager.finishRun
          (ScheduleManager.run cEnvMongo
            (ScheduleManager.addSchedule cEnvMongo ScheduleManager.initial schedA) schedA)
          0) schedA).schedules.length = 2
    ∧ assocGet (ScheduleManager.addSchedule cEnvMongo
        (ScheduleManager.finishRun
          (ScheduleManager.run cEnvMongo
            (ScheduleManager.addSchedule cEnvMongo ScheduleManager.initial schedA) schedA)
          0) schedA).headers 0
      ≠ assocGet (ScheduleManager.finishRun
          (ScheduleManager.run cEnvMongo
            (ScheduleManager.addSchedule cEnvMongo ScheduleManager.initial schedA) schedA)
          0).headers 0 := by decide

/-- Claim C4 as amended: `addSchedule` is not idempotent: every call (also for
an already-present schedule) appends the schedule to the schedule list, resets
the schedule's run counter to 0, and installs freshly allocated header (and,
on a Mongo backend, memory) caches. -/
theorem c4_amended_addSchedule_resets (env : Env) (m : ScheduleManager) (s : Schedule) :
    (ScheduleManager.addSchedule env m s).schedules = m.schedules ++ [s]
    ∧ jsGet (ScheduleManager.addSchedule env m s).scheduleRunCounts s.id = some 0
    ∧ assocGet (ScheduleManager.addSchedule env m s).headers s.id
        = some (m.nextRef + if env.isMongoDatabase then 1 else 0)
    ∧ (env.isMongoDatabase = true →
        assocGet (ScheduleManager.addSchedule env m s).memoryCollections s.id
          = some m.nextRef) := by
  refine ⟨rfl, jsGet_assocSet_self _ _ _, assocGet_assocSet_self _ _ _, ?_⟩
  intro hm
  show assocGet (if env.isMongoDatabase then assocSet m.memoryCollections s.id m.nextRef
    else m.memoryCollections) s.id = some m.nextRef
  rw [if_pos hm]
  exact assocGet_assocSet_self _ _ _

/-- Witness for the amended C4 at a concrete Mongo-backend state. -/
theorem c4_amended_witness :
    cEnvMongo.isMongoDatabase = true
    ∧ assocGet (ScheduleManager.addSchedule cEnvMongo ScheduleManager.initial
        schedA).memoryCollections 0 = some 0 :=
  ⟨rfl,
    (c4_amended_addSchedule_resets cEnvMongo ScheduleManager.initial schedA).2.2.2 rfl⟩

/-! ### Claim C5 -/

/-- Following the spec's words: the capacity bound resolves the schedule-level
override first, else the global configuration value; `none` stands for
ConfigUnavailableError. -/
def configuredMaxSpec (env : Env) (s : Schedule) : Option Nat :=
  match s.maxRunsOverride with
  | some n => some n
  | none => env.config.parallelRuns

/-- Counterexample for C5: with a per-schedule override of 5 and a global
value of 2, a schedule with exactly 2 registered runs is reported at capacity,
so the check uses the global value and ignores the override the claim says it
must use. -/
theorem c5_counterexample :
    configuredMaxSpec cEnvTwo schedOverride = some 5
    ∧ (mTwoRuns.getRuns 0).length = 2
    ∧ (mTwoRuns.getRuns 0).length ≠ 5
    ∧ ScheduleManager.atMaxRuns cEnvTwo mTwoRuns schedOverride = true := by decide

/-- Claim C5 as amended: the capacity check always compares against the global
configuration value: the schedule's override field never influences the
result, and when the global value is unavailable the check simply returns
false (dispatch proceeds; no ConfigUnavailableError exists in the code). -/
theorem c5_amended_global_only (env : Env) (m : ScheduleManager) (s s2 : Schedule)
    (h : s.id = s2.id) :
    ScheduleManager.atMaxRuns env m s = ScheduleManager.atMaxRuns env m s2
    ∧ (env.config.parallelRuns = none → ScheduleManager.atMaxRuns env m s = false) := by
  constructor
  · unfold ScheduleManager.atMaxRuns
    rw [h]
  · intro hn
    unfold ScheduleManager.atMaxRuns
    rw [hn]

/-- Witness for the amended C5: the override-carrying schedule and the
override-free schedule with the same identity get the same capacity verdict. -/
theorem c5_amended_witness :
    schedOverride.id = schedA.id
    ∧ ScheduleManager.atMaxRuns cEnvTwo mTwoRuns schedOverride
        = ScheduleManager.atMaxRuns cEnvTwo mTwoRuns schedA :=
  ⟨rfl, (c5_amended_global_only cEnvTwo mTwoRuns schedOverride schedA rfl).1⟩

/-! ### Claim C6 -/

/-- Counterexample for C6: terminating a run id that is not registered does
not fail and does not leave the registry unchanged: with registry [0, 1],
terminating the unknown run 5 removes run 1 (the most recently registered). -/
theorem c6_counterexample :
    5 ∉ mTwoDistinct.scheduleRuns
    ∧ mTwoDistinct.scheduleRuns = [0, 1]
    ∧ (mTwoDistinct.terminateRun 5).scheduleRuns = [0] := by decide

/-- Claim C6 as amended: removing an unregistered run raises no error:
`terminateRun` always returns a successor state, and for a run id not in the
registry it drops the last (most recently registered) registry entry instead
of leaving the registry unchanged. -/
theorem c6_amended_terminateRun_unknown (m : ScheduleManager) (rid : Nat)
    (h : rid ∉ m.scheduleRuns) :
    (m.terminateRun rid).scheduleRuns = m.scheduleRuns.dropLast := by
  rw [ScheduleManager.terminateRun_scheduleRuns, splice1_jsIndexOf_of_not_mem _ _ h]

/-- Witness for the amended C6. -/
theorem c6_amended_witness :
    5 ∉ mTwoDistinct.scheduleRuns
    ∧ (mTwoDistinct.terminateRun 5).scheduleRuns = mTwoDistinct.scheduleRuns.dropLast :=
  ⟨by decide, c6_amended_terminateRun_unknown mTwoDistinct 5 (by decide)⟩

/-! ### Claim C9 -/

/-- Claim C9: calling terminateRun on a run that is not registered, while the
registry is non-empty, does not fail: it removes the most recently registered
run (indexOf yields -1 and splice(-1, 1) deletes the last element), shrinking
the registry by one, while the argument run itself is still terminated and
unsubscribed. -/
theorem c9_terminateRun_unregistered (m : ScheduleManager) (rid : Nat)
    (h1 : rid ∉ m.scheduleRuns) (h2 : m.scheduleRuns ≠ []) :
    (m.terminateRun rid).scheduleRuns = m.scheduleRuns.dropLast
    ∧ (m.terminateRun rid).scheduleRuns.length + 1 = m.scheduleRuns.length
    ∧ (∀ v, assocGet m.runHeap rid = some v →
        assocGet (m.terminateRun rid).runHeap rid = some (markRun v)) := by
  have hd : (m.terminateRun rid).scheduleRuns = m.scheduleRuns.dropLast := by
    rw [ScheduleManager.terminateRun_scheduleRuns, splice1_jsIndexOf_of_not_mem _ _ h1]
  refine ⟨hd, ?_, ?_⟩
  · rw [hd, List.length_dropLast]
    have hpos : 0 < m.scheduleRuns.length := List.length_pos.mpr h2
    omega
  · intro v hv
    rw [ScheduleManager.terminateRun_runHeap, assocGet_markTerminated, hv]
    show some (if rid = rid then markRun v else v) = some (markRun v)
    rw [if_pos rfl]

/-- Registry [0, 1] plus a heap entry for an unregistered run 5. -/
def mW9 : ScheduleManager :=
  { mTwoDistinct with runHeap := mTwoDistinct.runHeap ++ [(5, runObjOf 0)] }

/-- Witness for C9: the unknown run 5 against registry [0, 1] with a heap
entry for run 5 present. -/
theorem c9_witness :
    5 ∉ mW9.scheduleRuns
    ∧ mW9.scheduleRuns ≠ []
    ∧ (mW9.terminateRun 5).scheduleRuns = mW9.scheduleRuns.dropLast
    ∧ assocGet (mW9.terminateRun 5).runHeap 5 = some (markRun (runObjOf 0)) := by
  refine ⟨by decide, by decide, ?_, ?_⟩
  · exact (c9_terminateRun_unregistered mW9 5 (by decide) (by decide)).1
  · exact (c9_terminateRun_unregistered mW9 5 (by decide) (by decide)).2.2 (runObjOf 0)
      (by decide)

/-! ### Claim C2 -/

namespace ScheduleManager

/-- Whether the run object of `rid` has been force-terminated
(`run.terminate()` called). -/
def runTerminated (m : ScheduleManager) (rid : Nat) : Bool :=
  match assocGet m.runHeap rid with
  | some v => v.terminated
  | none => false

end ScheduleManager

/-- Claim C2: when a schedule is at its configured maximum, dispatch logs a
warning naming the current run count, force-terminates every registered run of
the schedule (not just the oldest), and unconditionally registers a new run,
so that immediately afterwards the registry holds exactly one run of the
schedule and none of the old runs remain registered. -/
theorem c2_capacity_remediation (env : Env) (m : ScheduleManager) (s : Schedule)
    (hwf : ScheduleManager.WF m)
    (hcap : ScheduleManager.atMaxRuns env m s = true) :
    (ScheduleManager.run env m s).warnings = m.warnings ++ [(m.getRuns s.id).length]
    ∧ (∀ r ∈ m.getRuns s.id,
        ScheduleManager.runTerminated (ScheduleManager.run env m s) r = true)
    ∧ (ScheduleManager.run env m s).getRuns s.id = [m.nextRunId]
    ∧ (∀ r ∈ m.getRuns s.id, r ∉ (ScheduleManager.run env m s).scheduleRuns) := by
  obtain ⟨hnd, hb, hmem⟩ := hwf
  refine ⟨?_, ?_, ScheduleManager.run_getRuns_pos env m s hcap ⟨hnd, hb, hmem⟩, ?_⟩
  · rw [ScheduleManager.run_warnings, if_pos hcap]
  · intro r hr
    have hrs : r ∈ m.scheduleRuns := (List.mem_filter.mp hr).1
    have hrk : r ∈ m.runHeap.map Prod.fst := hmem r hrs
    obtain ⟨v, hv⟩ : ∃ v, assocGet m.runHeap r = some v := by
      cases hg : assocGet m.runHeap r
      · exact absurd ((assocGet_eq_none_iff _ _).mp hg) (by simp [hrk])
      · exact ⟨_, rfl⟩
    unfold ScheduleManager.runTerminated
    rw [ScheduleManager.run_runHeap, if_pos hcap]
    have h1 : assocGet ((m.getRuns s.id).foldl markTerminated m.runHeap) r
        = some (markRun v) := by
      rw [foldl_markTerminated_get, hv]
      show some (if (m.getRuns s.id).contains r = true then markRun v else v)
        = some (markRun v)
      rw [if_pos (List.elem_iff.mpr hr)]
    rw [assocGet_append_some _ _ _ _ h1]
    rfl
  · intro r hr
    have hrs : r ∈ m.scheduleRuns := (List.mem_filter.mp hr).1
    have hrb : ScheduleManager.belongsTo m.runHeap r s.id = true :=
      (List.mem_filter.mp hr).2
    have hlt : r < m.nextRunId := hb r (hmem r hrs)
    intro hcontra
    rw [ScheduleManager.run_scheduleRuns, if_pos hcap] at hcontra
    rcases List.mem_append.mp hcontra with hc1 | hc1
    · have heq : (m.getRuns s.id).foldl (fun l y => splice1 l (jsIndexOf l y)) m.scheduleRuns
          = m.scheduleRuns.filter (fun r => !(ScheduleManager.belongsTo m.runHeap r s.id)) := by
        have h2 := ScheduleManager.terminateScheduleRuns_scheduleRuns m s.id hnd
        rw [ScheduleManager.terminateScheduleRuns,
          ScheduleManager.foldl_terminateRun_scheduleRuns] at h2
        exact h2
      rw [heq] at hc1
      have h3 := (List.mem_filter.mp hc1).2
      rw [hrb] at h3
      simp at h3
    · simp at hc1
      omega

/-- Witness for C2: schedule 0 at capacity 2 with runs [0, 1]; dispatch warns
with count 2, terminates both, and leaves exactly the new run 2 registered. -/
theorem c2_witness :
    ScheduleManager.WF mTwoRuns
    ∧ ScheduleManager.atMaxRuns cEnvTwo mTwoRuns schedA = true
    ∧ (ScheduleManager.run cEnvTwo mTwoRuns schedA).warnings
        = mTwoRuns.warnings ++ [(mTwoRuns.getRuns 0).length]
    ∧ (ScheduleManager.run cEnvTwo mTwoRuns schedA).getRuns 0 = [2] := by
  have h := c2_capacity_remediation cEnvTwo mTwoRuns schedA (by decide) (by decide)
  exact ⟨by decide, by decide, h.1, h.2.2.1⟩

/-! ### Claim C3 -/

/-- Claim C3: a schedule's run counter starts at 0 when the schedule is added,
is incremented by exactly 1 per normal completion (finish event whose handler
fires for a run of that schedule), is unchanged by forced termination and by
every other lifecycle event, and is monotonically non-decreasing: after any
prefix of a lifecycle trace the counter equals the number of completions in
that prefix, which never exceeds the count for the full trace. -/
theorem c3_run_counter (env : Env) (m0 : ScheduleManager) (s : Schedule) (ops : List LCOp) :
    jsGet (ScheduleManager.addSchedule env m0 s).scheduleRunCounts s.id = some 0
    ∧ (∀ n : Nat,
        jsGet (ScheduleManager.applyTrace env (ScheduleManager.addSchedule env m0 s)
            (ops.take n)).scheduleRunCounts s.id
          = some (ScheduleManager.countCompletions env
              (ScheduleManager.addSchedule env m0 s) s.id (ops.take n)))
    ∧ (∀ n : Nat,
        ScheduleManager.countCompletions env
            (ScheduleManager.addSchedule env m0 s) s.id (ops.take n)
          ≤ ScheduleManager.countCompletions env
              (ScheduleManager.addSchedule env m0 s) s.id ops) := by
  have h0 : jsGet (ScheduleManager.addSchedule env m0 s).scheduleRunCounts s.id = some 0 := by
    show jsGet (assocSet m0.scheduleRunCounts s.id (some 0)) s.id = some 0
    exact jsGet_assocSet_self _ _ _
  refine ⟨h0, ?_, ?_⟩
  · intro n
    have h := ScheduleManager.applyTrace_jsGet env (ops.take n)
      (ScheduleManager.addSchedule env m0 s) s.id 0 h0
    simpa using h
  · intro n
    conv_rhs => rw [← List.take_append_drop n ops]
    rw [ScheduleManager.countCompletions_append]
    omega

/-! ### Claim C7 -/

/-- Claim C7: the memory cache and the header cache handed to a newly
dispatched run are the same objects (same reference ids) that were handed to
the schedule's previous run, across any interleaved lifecycle events: the
store returns them by reference and never copies or replaces them, so
mutations during one run are visible to the next run of the same schedule. -/
theorem c7_caches_shared_across_runs (env : Env) (m m1 m2 m3 : ScheduleManager)
    (s : Schedule) (ops : List LCOp) (hwf : ScheduleManager.WF m)
    (h1 : m1 = ScheduleManager.run env m s)
    (h2 : m2 = ScheduleManager.applyTrace env m1 ops)
    (h3 : m3 = ScheduleManager.run env m2 s) :
    (∃ v1 v2,
      assocGet m3.runHeap m.nextRunId = some v1
      ∧ assocGet m3.runHeap m2.nextRunId = some v2
      ∧ v1.memory = v2.memory ∧ v1.headers = v2.headers
      ∧ v2.memory = assocGet m.memoryCollections s.id
      ∧ v2.headers = assocGet m.headers s.id)
    ∧ m3.memoryCollections = m.memoryCollections
    ∧ m3.headers = m.headers := by
  subst h1; subst h2; subst h3
  obtain ⟨hnd, hb, hmem⟩ := hwf
  have hwf1 : ScheduleManager.WF (ScheduleManager.run env m s) :=
    ScheduleManager.WF_run env m s ⟨hnd, hb, hmem⟩
  have hwf2 : ScheduleManager.WF
      (ScheduleManager.applyTrace env (ScheduleManager.run env m s) ops) :=
    ScheduleManager.WF_applyTrace env ops _ hwf1
  have hmm2 : (ScheduleManager.applyTrace env (ScheduleManager.run env m s)
      ops).memoryCollections = m.memoryCollections := by
    rw [ScheduleManager.applyTrace_memoryCollections,
      ScheduleManager.run_memoryCollections]
  have hhd2 : (ScheduleManager.applyTrace env (ScheduleManager.run env m s)
      ops).headers = m.headers := by
    rw [ScheduleManager.applyTrace_headers, ScheduleManager.run_headers]
  have hnew1 : assocGet (ScheduleManager.run env m s).runHeap m.nextRunId
      = some (ScheduleManager.newRunObj m s) :=
    ScheduleManager.run_get_new env m s hb
  obtain ⟨vb, hvb, hfb⟩ := ScheduleManager.preservesRuns_applyTrace env ops
    (ScheduleManager.run env m s) m.nextRunId (ScheduleManager.newRunObj m s) hnew1
  obtain ⟨v1, hv1, hf1⟩ := ScheduleManager.run_get_old env _ s m.nextRunId vb hvb
  have hnew2 : assocGet (ScheduleManager.run env
        (ScheduleManager.applyTrace env (ScheduleManager.run env m s) ops) s).runHeap
      (ScheduleManager.applyTrace env (ScheduleManager.run env m s) ops).nextRunId
      = some (ScheduleManager.newRunObj
        (ScheduleManager.applyTrace env (ScheduleManager.run env m s) ops) s) :=
    ScheduleManager.run_get_new env _ s hwf2.2.1
  refine ⟨⟨v1,
    ScheduleManager.newRunObj
      (ScheduleManager.applyTrace env (ScheduleManager.run env m s) ops) s,
    hv1, hnew2, ?_, ?_, ?_, ?_⟩, ?_, ?_⟩
  · have e1 : v1.memory = (ScheduleManager.newRunObj m s).memory :=
      hf1.2.2.1.trans hfb.2.2.1
    have e2 : (ScheduleManager.newRunObj
        (ScheduleManager.applyTrace env (ScheduleManager.run env m s) ops) s).memory
        = assocGet m.memoryCollections s.id := by
      show assocGet (ScheduleManager.applyTrace env (ScheduleManager.run env m s)
        ops).memoryCollections s.id = _
      rw [hmm2]
    rw [e1, e2]
    show assocGet m.memoryCollections s.id = _
    rfl
  · have e1 : v1.headers = (ScheduleManager.newRunObj m s).headers :=
      hf1.2.2.2.trans hfb.2.2.2
    have e2 : (ScheduleManager.newRunObj
        (ScheduleManager.applyTrace env (ScheduleManager.run env m s) ops) s).headers
        = assocGet m.headers s.id := by
      show assocGet (ScheduleManager.applyTrace env (ScheduleManager.run env m s)
        ops).headers s.id = _
      rw [hhd2]
    rw [e1, e2]
    show assocGet m.headers s.id = _
    rfl
  · show assocGet (ScheduleManager.applyTrace env (ScheduleManager.run env m s)
      ops).memoryCollections s.id = _
    rw [hmm2]
  · show assocGet (ScheduleManager.applyTrace env (ScheduleManager.run env m s)
      ops).headers s.id = _
    rw [hhd2]
  · rw [ScheduleManager.run_memoryCollections, hmm2]
  · rw [ScheduleManager.run_headers, hhd2]

/-- The schedule registered into the initial state on a Mongo backend. -/
def mAdd : ScheduleManager :=
  ScheduleManager.addSchedule cEnvMongo ScheduleManager.initial schedA

/-- First dispatch for schedule 0. -/
def mC7one : ScheduleManager := ScheduleManager.run cEnvMongo mAdd schedA

/-- The first run finishes normally. -/
def mC7two : ScheduleManager :=
  ScheduleManager.applyTrace cEnvMongo mC7one [LCOp.finish 0]

/-- Second dispatch for schedule 0. -/
def mC7three : ScheduleManager := ScheduleManager.run cEnvMongo mC7two schedA

/-- Witness for C7: two consecutive dispatches of schedule 0 with a normal
completion in between receive the same memory and header references. -/
theorem c7_witness :
    ScheduleManager.WF mAdd
    ∧ ((∃ v1 v2,
        assocGet mC7three.runHeap mAdd.nextRunId = some v1
        ∧ assocGet mC7three.runHeap mC7two.nextRunId = some v2
        ∧ v1.memory = v2.memory ∧ v1.headers = v2.headers
        ∧ v2.memory = assocGet mAdd.memoryCollections schedA.id
        ∧ v2.headers = assocGet mAdd.headers schedA.id)
      ∧ mC7three.memoryCollections = mAdd.memoryCollections
      ∧ mC7three.headers = mAdd.headers) :=
  ⟨by decide,
    c7_caches_shared_across_runs cEnvMongo mAdd mC7one mC7two mC7three schedA
      [LCOp.finish 0] (by decide) rfl rfl rfl⟩

/-! ### Claim C8 -/

/-- Claim C8: `beginTimers` first cancels all previously armed timers, then for
each registered schedule triggers exactly one immediate dispatch (the run-id
allocator advances by exactly the number of schedules) and arms exactly one
repeating timer with period refreshRateMinutes * 60000 milliseconds (that is,
refreshIntervalMinutes * 60 seconds); calling it twice leaves the same single
timer set, never two concurrent timer sets for a schedule. -/
theorem c8_beginTimers (env : Env) (m : ScheduleManager)
    (hnd : (m.schedules.map Schedule.id).Nodup) :
    (ScheduleManager.beginTimers env m).timers
      = m.schedules.map (fun s => (s.id, s.refreshRateMinutes * 60000))
    ∧ (ScheduleManager.beginTimers env m).nextRunId = m.nextRunId + m.schedules.length
    ∧ (∀ s ∈ m.schedules,
        ((ScheduleManager.beginTimers env m).timers.filter
          (fun t => t.1 == s.id)).length = 1)
    ∧ (ScheduleManager.beginTimers env (ScheduleManager.beginTimers env m)).timers
        = m.schedules.map (fun s => (s.id, s.refreshRateMinutes * 60000)) := by
  refine ⟨ScheduleManager.beginTimers_timers env m,
    ScheduleManager.beginTimers_nextRunId env m, ?_, ?_⟩
  · intro s hs
    rw [ScheduleManager.beginTimers_timers, List.filter_map, List.length_map]
    have heq : m.schedules.filter
        ((fun t : Nat × Nat => t.1 == s.id)
          ∘ (fun s2 : Schedule => (s2.id, s2.refreshRateMinutes * 60000)))
        = m.schedules.filter (fun s2 => s2.id == s.id) := by
      apply List.filter_congr
      intro a _
      rfl
    rw [heq, ← List.countP_eq_length_filter]
    have h2 : m.schedules.countP (fun s2 => s2.id == s.id)
        = (m.schedules.map Schedule.id).countP (fun x => x == s.id) := by
      rw [List.countP_map]
      rfl
    rw [h2]
    have h3 : (m.schedules.map Schedule.id).countP (fun x => x == s.id)
        = (m.schedules.map Schedule.id).count s.id := rfl
    rw [h3]
    exact List.count_eq_one_of_mem hnd (List.mem_map_of_mem _ hs)
  · rw [ScheduleManager.beginTimers_timers, ScheduleManager.beginTimers_schedules]

def schedB : Schedule := { id := 1, refreshRateMinutes := 2, maxRunsOverride := none }

/-- Two distinct schedules registered. -/
def mTwoScheds : ScheduleManager :=
  ScheduleManager.addSchedules cEnvMongo ScheduleManager.initial [schedA, schedB]

/-- Witness for C8: two schedules with refresh rates 1 and 2 minutes get
exactly the timer list [(0, 60000), (1, 120000)], also after a second start. -/
theorem c8_witness :
    (mTwoScheds.schedules.map Schedule.id).Nodup
    ∧ (ScheduleManager.beginTimers cEnvMongo mTwoScheds).timers
        = [(0, 60000), (1, 120000)]
    ∧ (ScheduleManager.beginTimers cEnvMongo
        (ScheduleManager.beginTimers cEnvMongo mTwoScheds)).timers
        = [(0, 60000), (1, 120000)] := by
  have h := c8_beginTimers cEnvMongo mTwoScheds (by decide)
  refine ⟨by decide, ?_, ?_⟩
  · rw [h.1]
    decide
  · rw [h.2.2.2]
    decide

/-! ### Claim C10 -/

/-- Claim C10: on a non-Mongo backend, `addSchedule` allocates no memory cache
for the schedule, so every subsequent dispatch constructs the run with an
undefined memory collection, while the header cache is always an allocated
(initially empty) object regardless of backend. -/
theorem c10_no_memory_cache_without_mongo (env : Env) (m ma mb : ScheduleManager)
    (s : Schedule) (ops : List LCOp)
    (h1 : env.isMongoDatabase = false)
    (h2 : assocGet m.memoryCollections s.id = none)
    (hwf : ScheduleManager.WF m)
    (ha : ma = ScheduleManager.addSchedule env m s)
    (hb : mb = ScheduleManager.applyTrace env ma ops) :
    assocGet ma.memoryCollections s.id = none
    ∧ assocGet ma.headers s.id = some m.nextRef
    ∧ (assocGet (ScheduleManager.run env mb s).runHeap mb.nextRunId).map RunObj.memory
        = some none
    ∧ (assocGet (ScheduleManager.run env mb s).runHeap mb.nextRunId).map RunObj.headers
        = some (some m.nextRef) := by
  subst ha; subst hb
  have hma : assocGet (ScheduleManager.addSchedule env m s).memoryCollections s.id
      = none := by
    show assocGet (if env.isMongoDatabase then
        assocSet m.memoryCollections s.id m.nextRef
      else m.memoryCollections) s.id = none
    rw [h1, if_neg (by simp)]
    exact h2
  have hha : assocGet (ScheduleManager.addSchedule env m s).headers s.id
      = some m.nextRef := by
    show assocGet (assocSet m.headers s.id
      (m.nextRef + if env.isMongoDatabase then 1 else 0)) s.id = some m.nextRef
    rw [assocGet_assocSet_self, h1, if_neg (by simp)]
    norm_num
  have hwfa : ScheduleManager.WF (ScheduleManager.addSchedule env m s) :=
    ScheduleManager.WF_addSchedule env m s hwf
  have hwfb : ScheduleManager.WF
      (ScheduleManager.applyTrace env (ScheduleManager.addSchedule env m s) ops) :=
    ScheduleManager.WF_applyTrace env ops _ hwfa
  have hmb : (ScheduleManager.applyTrace env (ScheduleManager.addSchedule env m s)
      ops).memoryCollections = (ScheduleManager.addSchedule env m s).memoryCollections :=
    ScheduleManager.applyTrace_memoryCollections env ops _
  have hhb : (ScheduleManager.applyTrace env (ScheduleManager.addSchedule env m s)
      ops).headers = (ScheduleManager.addSchedule env m s).headers :=
    ScheduleManager.applyTrace_headers env ops _
  have hnew := ScheduleManager.run_get_new env
    (ScheduleManager.applyTrace env (ScheduleManager.addSchedule env m s) ops) s
    hwfb.2.1
  refine ⟨hma, hha, ?_, ?_⟩
  · rw [hnew]
    show some (assocGet (ScheduleManager.applyTrace env
      (ScheduleManager.addSchedule env m s) ops).memoryCollections s.id) = some none
    rw [hmb, hma]
  · rw [hnew]
    show some (assocGet (ScheduleManager.applyTrace env
      (ScheduleManager.addSchedule env m s) ops).headers s.id) = some (some m.nextRef)
    rw [hhb, hha]

/-- The schedule registered into the initial state on a non-Mongo backend. -/
def mAddNM : ScheduleManager :=
  ScheduleManager.addSchedule cEnvNoMongo ScheduleManager.initial schedA

/-- One full dispatch-and-finish cycle after registration, non-Mongo. -/
def mTrNM : ScheduleManager :=
  ScheduleManager.applyTrace cEnvNoMongo mAddNM [LCOp.dispatch schedA, LCOp.finish 0]

/-- Witness for C10: non-Mongo backend, schedule 0: the run constructed by the
dispatch after a full cycle has memory `none` but an allocated header cache. -/
theorem c10_witness :
    cEnvNoMongo.isMongoDatabase = false
    ∧ assocGet ScheduleManager.initial.memoryCollections 0 = none
    ∧ ScheduleManager.WF ScheduleManager.initial
    ∧ assocGet mAddNM.memoryCollections 0 = none
    ∧ assocGet mAddNM.headers 0 = some 0
    ∧ (assocGet (ScheduleManager.run cEnvNoMongo mTrNM schedA).runHeap
        mTrNM.nextRunId).map RunObj.memory = some none
    ∧ (assocGet (ScheduleManager.run cEnvNoMongo mTrNM schedA).runHeap
        mTrNM.nextRunId).map RunObj.headers = some (some 0) := by
  have h := c10_no_memory_cache_without_mongo cEnvNoMongo ScheduleManager.initial
    mAddNM mTrNM schedA [LCOp.dispatch schedA, LCOp.finish 0]
    rfl (by decide) (by decide) rfl rfl
  exact ⟨rfl, by decide, by decide, h.1, h.2.1, h.2.2.1, h.2.2.2⟩
